import Mathlib

/-!
# Verification of the IMP_Toolbox AlphaFold input-preparation core

Shallow embedding of `src/af_pipeline/AFInput.py` and
`src/af_pipeline/af_constants.py`: the entity resolver (`Entity` /
`AFSequence`), the AlphaFold3 job/seed machinery (`AFJob`, `AFCycle`) and
the sequence-only AlphaFold2/ColabFold family (`AlphaFold2`).

Python strings are modelled as `String` where only equality matters and as
`List Char` where the proofs must look inside the string (the AlphaFold2
job-name / FASTA-header pipeline).  Python `dict`s are association lists
with insertion-order semantics.  Fallible code returns `Except String`.
-/

namespace AFInput

/-! ## Constants (`af_constants.py`) -/

def PTM : List String :=
  ["CCD_SEP", "CCD_TPO", "CCD_PTR", "CCD_NEP", "CCD_HIP", "CCD_ALY",
   "CCD_MLY", "CCD_M3L", "CCD_MLZ", "CCD_2MR", "CCD_AGM", "CCD_MCS",
   "CCD_HYP", "CCD_HY3", "CCD_LYZ", "CCD_AHB", "CCD_P1L", "CCD_SNN",
   "CCD_SNC", "CCD_TRF", "CCD_KCR", "CCD_CIR", "CCD_YHA"]

def DNA_MOD : List String :=
  ["CCD_5CM", "CCD_C34", "CCD_5HC", "CCD_6OG", "CCD_6MA", "CCD_1CC",
   "CCD_8OG", "CCD_5FC", "CCD_3DR"]

def RNA_MOD : List String :=
  ["CCD_PSU", "CCD_5MC", "CCD_OMC", "CCD_4OC", "CCD_5MU", "CCD_OMU",
   "CCD_UR3", "CCD_A2M", "CCD_MA6", "CCD_6MZ", "CCD_2MG", "CCD_OMG",
   "CCD_7MG", "CCD_RSQ"]

def LIGAND : List String :=
  ["CCD_ADP", "CCD_ATP", "CCD_AMP", "CCD_GTP", "CCD_GDP", "CCD_FAD",
   "CCD_NAD", "CCD_NAP", "CCD_NDP", "CCD_HEM", "CCD_HEC", "CCD_PLM",
   "CCD_OLA", "CCD_MYR", "CCD_CIT", "CCD_CLA", "CCD_CHL", "CCD_BCL",
   "CCD_BCB"]

def ION : List String :=
  ["MG", "ZN", "CL", "CA", "NA", "MN", "K", "FE", "CU", "CO"]

def ENTITY_TYPES : List String :=
  ["proteinChain", "dnaSequence", "rnaSequence", "ligand", "ion"]

def SEED_MULTIPLIER : Nat := 10

/-! ## Python string slicing

`s[a:b]` on a Python string of length `n`: a negative index counts from the
end (clamped at 0), a nonnegative index is clamped at `n`; the result is the
characters in `[lo, hi)`. -/

def pyIdx (n : Nat) (i : Int) : Nat :=
  if i < 0 then ((n : Int) + i).toNat else min i.toNat n

def pySlice (s : List Char) (a b : Int) : List Char :=
  (s.take (pyIdx s.length b)).drop (pyIdx s.length a)

/-! ## The entity resolver (`Entity` and `AFSequence`)

One user-supplied entity declaration.  Optional dictionary keys become
`Option` fields; `none` models the key being absent. -/

structure EntityInfo where
  name : String
  type : String
  count : Option Nat := none
  range : Option (Int × Int) := none
  modifications : Option (List (String × Int)) := none
  glycans : Option (List (String × Int)) := none
  useStructureTemplate : Option Bool := none
  maxTemplateDate : Option String := none
deriving Repr, DecidableEq

/-- The fully-resolved entity (state of an `AFSequence` after construction).
`templateSettings` is `none` for the empty dict (non-proteinChain), otherwise
`some (useStructureTemplate, maxTemplateDate?)`. -/
structure ResolvedEntity where
  name : String
  type : String
  count : Nat
  realSequence : Option (List Char)
  start : Int
  stop : Int
  glycans : List (String × Int)
  modifications : List (String × Int)
  templateSettings : Option (Bool × Option String)
deriving Repr, DecidableEq

/-- `Entity.get_entity_count`: `entity_info.get("count", 1)`. -/
def get_entity_count (i : EntityInfo) : Nat := i.count.getD 1

/-- `Entity.get_real_sequence`: for proteinChain look in `protein_sequences`,
first through `entities_map[name]`, falling back (on any `KeyError` in the
`try` block) to the name itself; dna/rna do the same against
`nucleic_acid_sequences`; ligand/ion keep `real_sequence = None`. -/
def get_real_sequence (i : EntityInfo) (ps ns : List (String × List Char))
    (am : List (String × String)) :
    Except String (Option (List Char)) :=
  if i.type = "proteinChain" then
    match (List.lookup i.name am).bind (fun k => List.lookup k ps) with
    | some s => .ok (some s)
    | none =>
      match List.lookup i.name ps with
      | some s => .ok (some s)
      | none => .error ("Could not find the entity sequence for " ++ i.name)
  else if i.type = "dnaSequence" ∨ i.type = "rnaSequence" then
    match (List.lookup i.name am).bind (fun k => List.lookup k ns) with
    | some s => .ok (some s)
    | none =>
      match List.lookup i.name ns with
      | some s => .ok (some s)
      | none => .error ("Could not find the entity sequence for " ++ i.name)
  else .ok none

/-- `Entity.get_entity_range`: the supplied range, else `[1, len(real_sequence)]`
when a (truthy, i.e. nonempty) sequence exists, else `[1, 1]`. -/
def get_entity_range (i : EntityInfo) (realSeq : Option (List Char)) : Int × Int :=
  match i.range with
  | some r => r
  | none =>
    match realSeq with
    | some sq => if sq.length = 0 then (1, 1) else (1, (sq.length : Int))
    | none => (1, 1)

/-- `Entity.get_glycans`: only a proteinChain with a supplied `glycans` key gets
them, renumbered by `position - start + 1`; everything else gets `[]`. -/
def get_glycans (i : EntityInfo) (start : Int) : List (String × Int) :=
  match i.glycans with
  | some gs =>
    if i.type = "proteinChain" then gs.map (fun g => (g.1, g.2 - start + 1)) else []
  | none => []

/-- `Entity.get_modifications`: with a supplied `modifications` key, renumber by
`position - start + 1` for the three sequence-bearing types and raise for any
other type; absent key gives `[]`. -/
def get_modifications (i : EntityInfo) (start : Int) :
    Except String (List (String × Int)) :=
  match i.modifications with
  | none => .ok []
  | some ms =>
    if i.type = "proteinChain" ∨ i.type = "dnaSequence" ∨ i.type = "rnaSequence" then
      .ok (ms.map (fun m => (m.1, m.2 - start + 1)))
    else .error "Modifications are not supported for this entity type"

/-- `Entity.get_template_settings`. -/
def get_template_settings (i : EntityInfo) : Option (Bool × Option String) :=
  if i.type = "proteinChain" then
    if i.useStructureTemplate.getD true then
      some (true, some (i.maxTemplateDate.getD "2021-09-30"))
    else some (false, none)
  else none

/-- `Entity.sanity_check_entity_type`. -/
def sanity_check_entity_type (t : String) : Except String Unit :=
  if t ∈ ENTITY_TYPES then .ok () else .error ("Invalid entity type " ++ t)

/-- `Entity.sanity_check_small_molecule`. -/
def sanity_check_small_molecule (t n : String) : Except String Unit :=
  if (t = "ligand" ∧ n ∉ LIGAND) ∨ (t = "ion" ∧ n ∉ ION) then
    .error ("Invalid small molecule " ++ n)
  else .ok ()

/-- The position loop of `Entity.sanity_check_glycans`: report the first
glycan position outside `[1, len]`. -/
def glycan_positions_check (nm : String) (len : Int) :
    List (String × Int) → Except String Unit
  | [] => .ok ()
  | g :: gs =>
    if g.2 < 1 ∨ g.2 > len then
      .error ("Invalid glycan position at " ++ toString g.2 ++ " in " ++ nm)
    else glycan_positions_check nm len gs

/-- `Entity.sanity_check_glycans`.  At the time this runs the stored
`real_sequence` is still the unsliced catalog sequence. -/
def sanity_check_glycans (t nm : String) (glycans : List (String × Int))
    (realSeq : Option (List Char)) : Except String Unit := do
  if t = "proteinChain" ∧ glycans.length > 0 then
    glycan_positions_check nm ((realSeq.getD []).length : Int) glycans
  if t ≠ "proteinChain" ∧ glycans.length > 0 then
    throw "Glycosylation is not supported for this entity type"
  return ()

/-- The position loop of `Entity.sanity_check_modifications`. -/
def mod_positions_check (nm : String) (len : Int) :
    List (String × Int) → Except String Unit
  | [] => .ok ()
  | m :: ms =>
    if m.2 < 1 ∨ m.2 > len then
      .error ("Invalid modification at " ++ toString m.2 ++ " in " ++ nm)
    else mod_positions_check nm len ms

/-- `Entity.sanity_check_modifications`.  As in the source, the stored
`real_sequence` is still unsliced when the position bound is checked. -/
def sanity_check_modifications (t nm : String) (mods : List (String × Int))
    (realSeq : Option (List Char)) : Except String Unit := do
  if t ∉ (["proteinChain", "dnaSequence", "rnaSequence"] : List String)
      ∧ mods.length > 0 then
    throw "Modifications are not supported for this entity type"
  if t = "proteinChain" then
    if ¬ mods.all (fun m => decide (m.1 ∈ PTM)) then
      throw "Invalid modification type"
  else if t = "dnaSequence" then
    if ¬ mods.all (fun m => decide (m.1 ∈ DNA_MOD)) then
      throw "Invalid modification type"
  else if t = "rnaSequence" then
    if ¬ mods.all (fun m => decide (m.1 ∈ RNA_MOD)) then
      throw "Invalid modification type"
  mod_positions_check nm ((realSeq.getD []).length : Int) mods

/-- Constructing an `AFSequence`: `Entity.__init__` (type check, `fill_up_entity`,
the three sanity checks, in source order) followed by
`AFSequence.update_real_sequence`, which slices the sequence to
`[start-1 : end]` only after all checks have run. -/
def resolveAFSequence (i : EntityInfo) (ps ns : List (String × List Char))
    (am : List (String × String)) :
    Except String ResolvedEntity := do
  sanity_check_entity_type i.type
  let cnt := get_entity_count i
  let realSeq ← get_real_sequence i ps ns am
  let (s, e) := get_entity_range i realSeq
  let gl := get_glycans i s
  let mods ← get_modifications i s
  let ts := get_template_settings i
  sanity_check_glycans i.type i.name gl realSeq
  sanity_check_modifications i.type i.name mods realSeq
  sanity_check_small_molecule i.type i.name
  let finalSeq :=
    if i.type = "proteinChain" ∨ i.type = "dnaSequence" ∨ i.type = "rnaSequence" then
      realSeq.map (fun sq => pySlice sq (s - 1) e)
    else realSeq
  return { name := i.name, type := i.type, count := cnt, realSequence := finalSeq,
           start := s, stop := e, glycans := gl, modifications := mods,
           templateSettings := ts }

end AFInput

namespace AFInput

/-! ## Sequence formatting and the AlphaFold3 job machinery -/

/-- The output shape of `AFSequence.create_af_sequence`: a keyed JSON
sub-object per entity type. -/
inductive AFSeqFragment where
  | protein (sequence : List Char) (glycans modifications : List (String × Int))
      (count : Nat) (template : Option (Bool × Option String))
  | nucleic (type : String) (sequence : List Char)
      (modifications : List (String × Int)) (count : Nat)
  | small (type : String) (name : String) (count : Nat)
deriving Repr, DecidableEq

/-- `AFSequence.create_af_sequence`. -/
def create_af_sequence (r : ResolvedEntity) : AFSeqFragment :=
  if r.type = "proteinChain" then
    .protein (r.realSequence.getD []) r.glycans r.modifications r.count
      r.templateSettings
  else if r.type = "dnaSequence" ∨ r.type = "rnaSequence" then
    .nucleic r.type (r.realSequence.getD []) r.modifications r.count
  else
    .small r.type r.name r.count

/-- One AlphaFold3 job dictionary (`name`, `modelSeeds`, `sequences`). -/
structure AF3Job where
  name : String
  modelSeeds : List Int
  sequences : List AFSeqFragment
deriving Repr, DecidableEq

/-- `AFCycle.seed_jobs`: the list of jobs appended to `self.job_list` for one
job dictionary — the job itself when `modelSeeds` is empty, otherwise one copy
per seed named `f"{name}_{seed}"` carrying that single seed. -/
def seed_jobs (job : AF3Job) : List AF3Job :=
  if job.modelSeeds.length = 0 then [job]
  else job.modelSeeds.map (fun seed =>
    { name := job.name ++ "_" ++ toString seed, modelSeeds := [seed],
      sequences := job.sequences })

/-- `random.sample(population, k)` drawn without replacement, driven by an
explicit stream of random numbers: each draw removes the element at index
`(next random) % (remaining population size)`. -/
def randomSampleAux : List Nat → List Int → Nat → List Int
  | _, _, 0 => []
  | rs, pop, k + 1 =>
    if hp : pop.length = 0 then []
    else
      let idx : Fin pop.length :=
        ⟨rs.headD 0 % pop.length, Nat.mod_lt _ (Nat.pos_of_ne_zero hp)⟩
      pop.get idx :: randomSampleAux rs.tail (pop.eraseIdx idx) k

/-- `random.sample`: raises `ValueError` when the sample size exceeds the
population size. -/
def random_sample (pop : List Int) (k : Nat) (rs : List Nat) :
    Except String (List Int) :=
  if k > pop.length then .error "Sample larger than population or is negative"
  else .ok (randomSampleAux rs pop k)

/-- `AFJob.generate_seeds`: `random.sample(range(1, SEED_MULTIPLIER*num_seeds),
num_seeds)`. `range(1, 10n)` is `[1, ..., 10n-1]`. -/
def generate_seeds (num_seeds : Nat) (rs : List Nat) : Except String (List Int) :=
  random_sample
    ((List.range' 1 (SEED_MULTIPLIER * num_seeds - 1)).map Int.ofNat)
    num_seeds rs

end AFInput

namespace AFInput

/-! ## Decimal rendering of numbers (Python f-string interpolation)

The AlphaFold2 name/header pipeline builds strings by f-string interpolation
and then splits them on `"_"`, so these strings are modelled as `List Char`
with an explicit decimal printer. -/

/-- Decimal digits of `n`, most significant first, accumulated onto `acc`;
the first argument is structural fuel (`n` itself is always enough). -/
def natCharsAux : Nat → Nat → List Char → List Char
  | 0, _, acc => acc
  | fuel + 1, n, acc =>
    if n = 0 then acc
    else natCharsAux fuel (n / 10) (Nat.digitChar (n % 10) :: acc)

/-- `str(n)` for a nonnegative integer. -/
def natChars (n : Nat) : List Char :=
  if n = 0 then ['0'] else natCharsAux n n []

/-- `str(i)` for a Python integer. -/
def intChars (i : Int) : List Char :=
  if i < 0 then '-' :: natChars i.natAbs else natChars i.toNat

/-- `s.split(c)` for a one-character separator (Python `str.split` with an
explicit separator: no collapsing, `"".split(c) == [""]`). -/
def splitOnChar (c : Char) : List Char → List (List Char)
  | [] => [[]]
  | x :: xs =>
    match splitOnChar c xs with
    | [] => [[]]
    | h :: t => if x = c then [] :: h :: t else (x :: h) :: t

/-! ## The AlphaFold2 / ColabFold (sequence-only) pipeline -/

/-- One element of `job_dict["entities"]` in
`AlphaFold2.generate_job_entities`. -/
structure AF2Entity where
  header : List Char
  sequence : List Char
  rstart : Int
  rend : Int
  count : Nat
deriving Repr, DecidableEq

/-- The grouping key `f"{header}_{start}to{end}"` of
`AlphaFold2.generate_job_name`. -/
def fragKey (e : AF2Entity) : List Char :=
  e.header ++ '_' :: (intChars e.rstart ++ 't' :: 'o' :: intChars e.rend)

/-- `fragments[key].append(count)` on a `defaultdict(list)` kept as an
insertion-ordered association list. -/
def addFragment (d : List (List Char × List Nat)) (k : List Char) (c : Nat) :
    List (List Char × List Nat) :=
  if d.any (fun p => p.1 = k) then
    d.map (fun p => if p.1 = k then (p.1, p.2 ++ [c]) else p)
  else d ++ [(k, [c])]

/-- Python `max` over the (always nonempty) count lists. -/
def listMax (l : List Nat) : Nat := l.foldl Nat.max 0

/-- One loop iteration of `AlphaFold2.generate_job_name`:
`header_, range_ = header.split("_")` (a `ValueError` unless the split has
exactly two pieces) followed by `job_name += f"{header_}_{count}_{range_}_"`. -/
def fragmentPiece (k : List Char) (cnt : Nat) : Except String (List Char) :=
  match splitOnChar '_' k with
  | [h, r] => .ok (h ++ '_' :: (natChars cnt ++ '_' :: (r ++ ['_'])))
  | _ => .error "ValueError: values to unpack"

/-- `AlphaFold2.generate_job_name`: group the expanded entities by
`f"{header}_{start}to{end}"`, keep the max count per group, emit one
`f"{header_}_{count}_{range_}_"` piece per group in first-seen order, then
inspect the last character (an `IndexError` on the empty string) and trim a
trailing underscore. -/
def generate_job_name (entities : List AF2Entity) : Except String (List Char) := do
  let frag := entities.foldl (fun d e => addFragment d (fragKey e) e.count) []
  let pieces ← (frag.map (fun p => (p.1, listMax p.2))).mapM
    (fun p => fragmentPiece p.1 p.2)
  let jn := pieces.foldl (fun a b => a ++ b) ([] : List Char)
  match jn.getLast? with
  | none => .error "IndexError: string index out of range"
  | some c => .ok (if c = '_' then jn.dropLast else jn)

/-- One entity declaration of the AlphaFold2 job YAML. -/
structure AF2Decl where
  name : List Char
  type : String
  range : Option (Int × Int) := none
  count : Option Nat := none
deriving Repr, DecidableEq

/-- An AlphaFold2 job declaration: an optional name and the entity list. -/
structure AF2JobInfo where
  name : Option (List Char)
  entities : List AF2Decl
deriving Repr, DecidableEq

/-- The lookup of `AlphaFold2.get_entity_sequences`: try
`protein_sequences[header]` first, fall back to
`protein_sequences[entities_map[header]]`, raise when both miss. -/
def af2LookupSequence (ps : List (List Char × List Char))
    (am : List (List Char × List Char)) (h : List Char) :
    Except String (List Char) :=
  match List.lookup h ps with
  | some s => .ok s
  | none =>
    match (List.lookup h am).bind (fun k => List.lookup k ps) with
    | some s => .ok s
    | none => .error ("Could not find the entity sequence for " ++ String.mk h)

/-- `AlphaFold2.get_entity_sequences`: look every header up, then slice
`sequences[i] = sequences[i][start-1:end]` wherever a (truthy) range was
supplied. -/
def get_entity_sequences (ps am : List (List Char × List Char))
    (ranges : List (Option (Int × Int))) (headers : List (List Char)) :
    Except String (List (List Char)) := do
  let seqs ← headers.mapM (af2LookupSequence ps am)
  return seqs.zipWith
    (fun sq r => match r with
      | some (s, e) => pySlice sq (s - 1) e
      | none => sq)
    ranges

/-- The entity-expansion loop of `AlphaFold2.generate_job_entities`: for each
proteinChain (zipping headers, sequences, ranges and counts) append one entry
per `count_ in range(1, count+1)`, the inner loop variable shadowing the
declared count. -/
def buildEntities : List (List Char) → List (List Char) →
    List (Option (Int × Int)) → List Nat → List AF2Entity
  | h :: hs, sq :: sqs, r :: rs, c :: cs =>
    ((List.range' 1 c).map (fun j =>
      { header := h, sequence := sq,
        rstart := (match r with | some (s, _) => s | none => 1),
        rend := (match r with | some (_, e) => e | none => (sq.length : Int)),
        count := j })) ++ buildEntities hs sqs rs cs
  | _, _, _, _ => []

/-- Python `dict` assignment `d[k] = v` on an insertion-ordered association
list: overwrite in place if the key exists, else append. -/
def dictInsert (d : List (List Char × List Char)) (k v : List Char) :
    List (List Char × List Char) :=
  if d.any (fun p => p.1 = k) then
    d.map (fun p => if p.1 = k then (k, v) else p)
  else d ++ [(k, v)]

/-- The FASTA header `f"{header}_{entity_count}_{start}to{end}"`. -/
def afHeader (h : List Char) (i : Nat) (s e : Int) : List Char :=
  h ++ '_' :: (natChars i ++ '_' :: (intChars s ++ 't' :: 'o' :: intChars e))

/-- The `sequences_to_add` loop of `AlphaFold2.generate_job_entities`: for
each expanded entity, insert one header per `entity_count in
range(1, count+1)` mapped to its sequence. -/
def sequencesToAdd (entities : List AF2Entity) :
    List (List Char × List Char) :=
  entities.foldl
    (fun d ent =>
      (List.range' 1 ent.count).foldl
        (fun d2 i => dictInsert d2 (afHeader ent.header i ent.rstart ent.rend)
          ent.sequence)
        d)
    []

/-- `AlphaFold2.generate_job_entities`: extract the proteinChain headers,
ranges and counts, look up and slice the sequences, expand the entities,
derive the job name when none was declared (Python truthiness: an empty
declared name also triggers generation), and build the FASTA dictionary. -/
def generate_job_entities (ps am : List (List Char × List Char))
    (job : AF2JobInfo) :
    Except String (List (List Char × List Char) × List Char) := do
  let chains := job.entities.filter (fun d => d.type = "proteinChain")
  let headers := chains.map (fun d => d.name)
  let ranges := chains.map (fun d => d.range)
  let counts := chains.map (fun d => d.count.getD 1)
  let seqs ← get_entity_sequences ps am ranges headers
  let entities := buildEntities headers seqs ranges counts
  let jobName ← match job.name with
    | some n => if n = [] then generate_job_name entities else .ok n
    | none => generate_job_name entities
  return (sequencesToAdd entities, jobName)

end AFInput

namespace AFInput

/-! ## Comparison definitions transcribed from the spec (§4.3)

These follow the spec's words — "group entities by `(name, start, end)`,
take the maximum `count` seen per group, then concatenate
`"{name}_{maxCount}_{start}to{end}"` fragments in first-seen group order,
joined by `_`" — for comparison against `generate_job_name` above. -/

/-- The distinct `(name, start, end)` groups, in first-seen order. -/
def specGroups (entities : List AF2Entity) : List (List Char × Int × Int) :=
  entities.foldl
    (fun acc e =>
      if (e.header, e.rstart, e.rend) ∈ acc then acc
      else acc ++ [(e.header, e.rstart, e.rend)])
    []

/-- All counts seen in one `(name, start, end)` group, in entity order. -/
def groupCounts (entities : List AF2Entity) (t : List Char × Int × Int) :
    List Nat :=
  (entities.filter (fun e => (e.header, e.rstart, e.rend) = t)).map
    (fun e => e.count)

/-- The maximum count seen in one group. -/
def specMaxCount (entities : List AF2Entity) (t : List Char × Int × Int) : Nat :=
  listMax (groupCounts entities t)

/-- Joining a list of fragments with a separator (the spec's "joined by
`_`"). -/
def joinSep (sep : List Char) : List (List Char) → List Char
  | [] => []
  | [x] => x
  | x :: y :: xs => x ++ sep ++ joinSep sep (y :: xs)

/-- The spec's job name: one fragment per group, joined by `"_"`. -/
def spec_job_name (entities : List AF2Entity) : List Char :=
  joinSep ['_']
    ((specGroups entities).map (fun t =>
      t.1 ++ '_' :: (natChars (specMaxCount entities t) ++ '_' ::
        (intChars t.2.1 ++ 't' :: 'o' :: intChars t.2.2))))

/-- The string key `generate_job_name` uses for a `(name, start, end)` group. -/
def tupleKey (t : List Char × Int × Int) : List Char :=
  t.1 ++ '_' :: (intChars t.2.1 ++ 't' :: 'o' :: intChars t.2.2)

/-- The decimal digits. -/
def decDigits : List Char :=
  ['0', '1', '2', '3', '4', '5', '6', '7', '8', '9']

/-- Decimal valuation of a digit string (proof device for injectivity of the
decimal printer). -/
def decVal (l : List Char) : Nat :=
  l.foldl (fun a c => 10 * a + (c.toNat - 48)) 0

end AFInput

namespace AFInput

/-! ## General helper lemmas -/

theorem exceptBind_ok_iff {ε α β} (x : Except ε α) (f : α → Except ε β) (b : β) :
    (x >>= f) = .ok b ↔ ∃ a, x = .ok a ∧ f a = .ok b := by
  cases x <;> simp [Bind.bind, Except.bind]

theorem pySlice_of_bounds (sq : List Char) (s e : Int) (hs : 1 ≤ s) (hse : s ≤ e)
    (he : e ≤ (sq.length : Int)) :
    pySlice sq (s - 1) e = (sq.drop (s - 1).toNat).take (e - s + 1).toNat := by
  unfold pySlice pyIdx
  rw [if_neg (by omega), if_neg (by omega)]
  rw [min_eq_left (by omega), min_eq_left (by omega)]
  rw [List.drop_take]
  congr 1
  omega

theorem length_pySlice_of_bounds (sq : List Char) (s e : Int) (hs : 1 ≤ s)
    (hse : s ≤ e) (he : e ≤ (sq.length : Int)) :
    ((pySlice sq (s - 1) e).length : Int) = e - s + 1 := by
  rw [pySlice_of_bounds sq s e hs hse he]
  rw [List.length_take, List.length_drop]
  omega

/-- Resolution of a proteinChain entity with a supplied range and no
annotations always succeeds and slices after the checks. -/
theorem resolve_protein_plain (i : EntityInfo) (ps ns : List (String × List Char))
    (am : List (String × String)) (sq : List Char) (s e : Int)
    (hty : i.type = "proteinChain") (hrg : i.range = some (s, e))
    (hmods : i.modifications = none) (hgly : i.glycans = none)
    (hseq : get_real_sequence i ps ns am = .ok (some sq)) :
    resolveAFSequence i ps ns am =
      .ok { name := i.name, type := i.type, count := get_entity_count i,
            realSequence := some (pySlice sq (s - 1) e), start := s, stop := e,
            glycans := [], modifications := [],
            templateSettings := get_template_settings i } := by
  unfold resolveAFSequence
  rw [hseq]
  simp only [hty, sanity_check_entity_type, ENTITY_TYPES, get_entity_range, hrg,
    get_glycans, hgly, get_modifications, hmods, sanity_check_glycans,
    sanity_check_modifications, sanity_check_small_molecule, PTM]
  simp [Except.bind, Bind.bind, pure, Except.pure, mod_positions_check]

/-- Inverting a successful resolution into its constituent computations. -/
theorem resolve_ok_inversion (i : EntityInfo) (ps ns : List (String × List Char))
    (am : List (String × String)) (r : ResolvedEntity)
    (h : resolveAFSequence i ps ns am = .ok r) :
    ∃ rs, get_real_sequence i ps ns am = .ok rs ∧
      r.start = (get_entity_range i rs).1 ∧ r.stop = (get_entity_range i rs).2 ∧
      r.glycans = get_glycans i (get_entity_range i rs).1 ∧
      get_modifications i (get_entity_range i rs).1 = .ok r.modifications ∧
      r.templateSettings = get_template_settings i ∧
      r.name = i.name ∧ r.type = i.type ∧ r.count = get_entity_count i := by
  unfold resolveAFSequence at h
  simp only [exceptBind_ok_iff, exists_and_left] at h
  obtain ⟨u1, h1, rs, hrs, h⟩ := h
  refine ⟨rs, hrs, ?_⟩
  revert h
  cases hr : get_entity_range i rs with
  | mk s e =>
    intro h
    simp only [exceptBind_ok_iff, exists_and_left] at h
    obtain ⟨mods, hmods, u2, h2, u3, h3, u4, h4, hok⟩ := h
    simp only [pure, Except.pure, Except.ok.injEq] at hok
    subst hok
    simp [hmods]

/-! ## Claims C1 and C2 -/

/-- C1: the spec demands that a renumbered modification/glycan position
outside `[1, length(realSequence)]` (the sequence sliced to `[s,e]`) always
raise `InvalidAnnotationPosition`.  The code instead validates renumbered
positions against the unsliced catalog sequence, because the sanity checks
run in `Entity.__init__` before `AFSequence.update_real_sequence` slices: on
catalog `P1 = "MKVLAA"` with range `[2,5]` and a modification at original
position 7, the renumbered position 6 exceeds the sliced length 4, yet
resolution succeeds and stores position 6. -/
theorem C1_position_checked_against_unsliced :
    (resolveAFSequence
      { name := "P1", type := "proteinChain", range := some (2, 5),
        modifications := some [("CCD_HYP", 7)] }
      [("P1", "MKVLAA".toList)] [] []).map
      (fun r => (r.realSequence, r.modifications)) =
      .ok (some "KVLA".toList, [("CCD_HYP", 6)]) ∧
    ("KVLA".toList.length : Int) < 6 :=
  ⟨by rfl, by decide⟩

/-- C2: the spec demands `UnsupportedAnnotation` whenever glycans are
supplied for a non-proteinChain entity.  The code's `get_glycans` empties the
glycan list for any non-proteinChain entity before `sanity_check_glycans`
looks at it, so the intended raise is unreachable: a dnaSequence with a
supplied glycan resolves successfully with the glycans silently dropped.
The modification half of the claim does hold: a supplied `modifications` key
on a ligand raises. -/
theorem C2_glycans_silently_dropped :
    (resolveAFSequence
      { name := "D1", type := "dnaSequence", glycans := some [("BMA", 1)] }
      [] [("D1", "ATCG".toList)] []).map
      (fun r => (r.glycans, r.modifications)) = .ok ([], []) ∧
    resolveAFSequence
      { name := "CCD_ATP", type := "ligand", modifications := some [] }
      [] [] [] =
      .error "Modifications are not supported for this entity type" :=
  ⟨by rfl, by rfl⟩

end AFInput

namespace AFInput

/-! ## Claim C3 -/

/-- C3 counterexample: the claim says every variant looks the catalog up
under `aliasMap[name]` first and only then under `name` directly.  In the
sequence-only family (`AlphaFold2.get_entity_sequences`) the order is
reversed: with catalog `A ↦ XXX, B ↦ YYY` and alias `A ↦ B`, the
alias-indirected key exists and holds `YYY`, yet the lookup returns the
direct hit `XXX`. -/
theorem C3_sequence_only_prefers_direct_name :
    List.lookup "A".toList [("A".toList, "B".toList)] = some "B".toList ∧
    List.lookup "B".toList
      [("A".toList, "XXX".toList), ("B".toList, "YYY".toList)] =
      some "YYY".toList ∧
    af2LookupSequence [("A".toList, "XXX".toList), ("B".toList, "YYY".toList)]
      [("A".toList, "B".toList)] "A".toList = .ok "XXX".toList ∧
    "XXX".toList ≠ "YYY".toList :=
  ⟨by rfl, by rfl, by rfl, by decide⟩

/-- C3 amended: the JSON-rich resolver (`Entity.get_real_sequence`) tries the
catalog under `aliasMap[name]` first and falls back to `name` — in both of
its duplicated lookup branches, the proteinChain one against
`protein_sequences` and the dnaSequence/rnaSequence one against
`nucleic_acid_sequences`; the sequence-only family
(`AlphaFold2.get_entity_sequences`) tries `name` first and falls back to
`aliasMap[name]`; in every case the sequence-not-found error is raised
exactly when both attempts miss. -/
theorem C3_amended_lookup_order (i : EntityInfo)
    (ps ns : List (String × List Char)) (am : List (String × String))
    (ps2 am2 : List (List Char × List Char)) (nm : List Char) :
    (i.type = "proteinChain" →
      (∀ s, (List.lookup i.name am).bind (fun k => List.lookup k ps) = some s →
          get_real_sequence i ps ns am = .ok (some s)) ∧
      (∀ s, (List.lookup i.name am).bind (fun k => List.lookup k ps) = none →
          List.lookup i.name ps = some s →
          get_real_sequence i ps ns am = .ok (some s)) ∧
      (get_real_sequence i ps ns am =
          .error ("Could not find the entity sequence for " ++ i.name) ↔
        ((List.lookup i.name am).bind (fun k => List.lookup k ps) = none ∧
          List.lookup i.name ps = none))) ∧
    (i.type = "dnaSequence" ∨ i.type = "rnaSequence" →
      (∀ s, (List.lookup i.name am).bind (fun k => List.lookup k ns) = some s →
          get_real_sequence i ps ns am = .ok (some s)) ∧
      (∀ s, (List.lookup i.name am).bind (fun k => List.lookup k ns) = none →
          List.lookup i.name ns = some s →
          get_real_sequence i ps ns am = .ok (some s)) ∧
      (get_real_sequence i ps ns am =
          .error ("Could not find the entity sequence for " ++ i.name) ↔
        ((List.lookup i.name am).bind (fun k => List.lookup k ns) = none ∧
          List.lookup i.name ns = none))) ∧
    (∀ s, List.lookup nm ps2 = some s → af2LookupSequence ps2 am2 nm = .ok s) ∧
    (∀ s, List.lookup nm ps2 = none →
        (List.lookup nm am2).bind (fun k => List.lookup k ps2) = some s →
        af2LookupSequence ps2 am2 nm = .ok s) ∧
    (af2LookupSequence ps2 am2 nm =
        .error ("Could not find the entity sequence for " ++ String.mk nm) ↔
      (List.lookup nm ps2 = none ∧
        (List.lookup nm am2).bind (fun k => List.lookup k ps2) = none)) := by
  refine ⟨fun hty => ?_, fun hty => ?_, ?_, ?_, ?_⟩
  · unfold get_real_sequence
    simp only [hty, if_pos rfl, reduceIte]
    cases h1 : (List.lookup i.name am).bind (fun k => List.lookup k ps) <;>
      cases h2 : List.lookup i.name ps <;> simp
  · have hnp : ¬ i.type = "proteinChain" := by
      rcases hty with h | h <;> rw [h] <;> decide
    unfold get_real_sequence
    rw [if_neg hnp, if_pos hty]
    cases h1 : (List.lookup i.name am).bind (fun k => List.lookup k ns) <;>
      cases h2 : List.lookup i.name ns <;> simp
  · intro s h3
    unfold af2LookupSequence
    rw [h3]
  · intro s h3 h4
    unfold af2LookupSequence
    rw [h3, h4]
  · unfold af2LookupSequence
    cases h3 : List.lookup nm ps2 <;>
      cases h4 : (List.lookup nm am2).bind (fun k => List.lookup k ps2) <;> simp

/-- C3 witness: the amended lookup-order theorem applied to concrete
catalogs — the sequence-only direct hit, and the nucleic-acid branch of the
JSON-rich resolver preferring the alias-indirected key (`D2 ↦ GGG`) over the
direct one (`D1 ↦ TTT`). -/
theorem C3_lookup_order_witness :
    af2LookupSequence [("A".toList, "XXX".toList)] [] "A".toList =
      .ok "XXX".toList ∧
    get_real_sequence { name := "D1", type := "dnaSequence" }
      [] [("D1", "TTT".toList), ("D2", "GGG".toList)] [("D1", "D2")] =
      .ok (some "GGG".toList) :=
  ⟨(C3_amended_lookup_order { name := "A", type := "proteinChain" } [] [] []
      [("A".toList, "XXX".toList)] [] "A".toList).2.2.1
      "XXX".toList (by rfl),
   ((C3_amended_lookup_order { name := "D1", type := "dnaSequence" }
      [] [("D1", "TTT".toList), ("D2", "GGG".toList)] [("D1", "D2")]
      [] [] []).2.1 (Or.inl rfl)).1 "GGG".toList (by rfl)⟩

end AFInput

namespace AFInput

/-! ## Claims C4 and C5 -/

/-- C4: for every catalog sequence and supplied range `[s,e]` with
`1 ≤ s ≤ e ≤ length(sequence)`, the resolved `realSequence` is the 1-indexed
inclusive slice `sequence[s-1:e]` with length `e-s+1`, the effective window
is `[s,e]`, and the template settings default to
`useStructureTemplate = true, maxTemplateDate = "2021-09-30"`. -/
theorem C4_valid_range_slicing (i : EntityInfo) (ps ns : List (String × List Char))
    (am : List (String × String)) (sq : List Char) (s e : Int)
    (hty : i.type = "proteinChain") (hrg : i.range = some (s, e))
    (hmods : i.modifications = none) (hgly : i.glycans = none)
    (hseq : get_real_sequence i ps ns am = .ok (some sq))
    (hs : 1 ≤ s) (hse : s ≤ e) (he : e ≤ (sq.length : Int)) :
    ∃ r, resolveAFSequence i ps ns am = .ok r ∧
      r.realSequence = some ((sq.drop (s - 1).toNat).take (e - s + 1).toNat) ∧
      ((r.realSequence.getD []).length : Int) = e - s + 1 ∧
      r.start = s ∧ r.stop = e ∧
      (i.useStructureTemplate = none → i.maxTemplateDate = none →
        r.templateSettings = some (true, some "2021-09-30")) := by
  refine ⟨_, resolve_protein_plain i ps ns am sq s e hty hrg hmods hgly hseq,
    ?_, ?_, rfl, rfl, ?_⟩
  · simp [pySlice_of_bounds sq s e hs hse he]
  · simpa using length_pySlice_of_bounds sq s e hs hse he
  · intro h1 h2
    simp [get_template_settings, hty, h1, h2]

/-- C4 witness: the end-to-end scenario of the spec, catalog `P1 ↦ MKVLAA`
with range `[2,5]`. -/
theorem C4_slicing_witness :
    ∃ r, resolveAFSequence
        { name := "P1", type := "proteinChain", range := some (2, 5) }
        [("P1", "MKVLAA".toList)] [] [] = .ok r ∧
      r.realSequence = some "KVLA".toList ∧
      ((r.realSequence.getD []).length : Int) = 5 - 2 + 1 ∧
      r.start = 2 ∧ r.stop = 5 ∧
      r.templateSettings = some (true, some "2021-09-30") := by
  obtain ⟨r, h1, h2, h3, h4, h5, h6⟩ :=
    C4_valid_range_slicing
      { name := "P1", type := "proteinChain", range := some (2, 5) }
      [("P1", "MKVLAA".toList)] [] [] "MKVLAA".toList 2 5
      rfl rfl rfl rfl (by rfl) (by decide) (by decide) (by decide)
  exact ⟨r, h1, by rw [h2]; decide, h3, h4, h5, h6 rfl rfl⟩

/-- C5: for a sequence-bearing entity with range `[s,e]`, every supplied
modification (resp. glycan, for proteinChain) at original position `p` with
`s ≤ p ≤ e` is stored in the resolved entity at position `p - s + 1`, which
lies in `[1, e-s+1]`. -/
theorem C5_renumbered_positions (i : EntityInfo)
    (ps ns : List (String × List Char)) (am : List (String × String))
    (r : ResolvedEntity) (s e : Int)
    (hrg : i.range = some (s, e))
    (hok : resolveAFSequence i ps ns am = .ok r) :
    (∀ code p,
      (i.type = "proteinChain" ∨ i.type = "dnaSequence" ∨
        i.type = "rnaSequence") →
      (code, p) ∈ i.modifications.getD [] → s ≤ p → p ≤ e →
      ((code, p - s + 1) ∈ r.modifications ∧ 1 ≤ p - s + 1 ∧
        p - s + 1 ≤ e - s + 1)) ∧
    (∀ code p, i.type = "proteinChain" →
      (code, p) ∈ i.glycans.getD [] → s ≤ p → p ≤ e →
      ((code, p - s + 1) ∈ r.glycans ∧ 1 ≤ p - s + 1 ∧
        p - s + 1 ≤ e - s + 1)) := by
  obtain ⟨rs, hrs, hstart, hstop, hgl, hmods, hts, hname, htype, hcnt⟩ :=
    resolve_ok_inversion i ps ns am r hok
  have hr : get_entity_range i rs = (s, e) := by simp [get_entity_range, hrg]
  rw [hr] at hgl hmods
  constructor
  · intro code p hty hmem hsp hpe
    cases hms : i.modifications with
    | none => rw [hms] at hmem; simp at hmem
    | some ms =>
      rw [hms] at hmem
      simp only [Option.getD_some] at hmem
      unfold get_modifications at hmods
      simp only [hms] at hmods
      rw [if_pos hty] at hmods
      have hmap : ms.map (fun m => (m.1, m.2 - s + 1)) = r.modifications := by
        simpa using hmods
      refine ⟨?_, by omega, by omega⟩
      rw [← hmap]
      exact List.mem_map_of_mem _ hmem
  · intro code p hty hmem hsp hpe
    cases hgs : i.glycans with
    | none => rw [hgs] at hmem; simp at hmem
    | some gs =>
      rw [hgs] at hmem
      simp only [Option.getD_some] at hmem
      unfold get_glycans at hgl
      simp only [hgs] at hgl
      rw [if_pos hty] at hgl
      refine ⟨?_, by omega, by omega⟩
      rw [hgl]
      exact List.mem_map_of_mem _ hmem

/-- C5 witness: catalog `P1 ↦ MKVLAA`, range `[2,5]`, a modification at
original position 3 stored at `3-2+1 = 2` and a glycan at original position
4 stored at `4-2+1 = 3`. -/
theorem C5_renumbering_witness :
    (("CCD_HYP", (3 : Int) - 2 + 1) ∈ ([("CCD_HYP", (2 : Int))] : List (String × Int)) ∧
      (1 : Int) ≤ 3 - 2 + 1 ∧ (3 : Int) - 2 + 1 ≤ 5 - 2 + 1) ∧
    (("NAG", (4 : Int) - 2 + 1) ∈ ([("NAG", (3 : Int))] : List (String × Int)) ∧
      (1 : Int) ≤ 4 - 2 + 1 ∧ (4 : Int) - 2 + 1 ≤ 5 - 2 + 1) := by
  have h := C5_renumbered_positions
    { name := "P1", type := "proteinChain", range := some (2, 5),
      modifications := some [("CCD_HYP", 3)], glycans := some [("NAG", 4)] }
    [("P1", "MKVLAA".toList)] [] []
    { name := "P1", type := "proteinChain", count := 1,
      realSequence := some "KVLA".toList, start := 2, stop := 5,
      glycans := [("NAG", 3)], modifications := [("CCD_HYP", 2)],
      templateSettings := some (true, some "2021-09-30") }
    2 5 rfl (by rfl)
  exact ⟨h.1 "CCD_HYP" 3 (Or.inl rfl) (by decide) (by decide) (by decide),
    h.2 "NAG" 4 rfl (by decide) (by decide) (by decide)⟩

end AFInput

namespace AFInput

/-! ## Claims C6 and C7 -/

/-- C6: a job with a nonempty resolved seed list fans out into exactly one
job per seed, in seed-list order, each named `{baseName}_{seed}` and carrying
exactly that single seed (with the sequences untouched); an empty seed list
yields exactly the one original job unchanged. -/
theorem C6_seed_expansion (job : AF3Job) :
    (job.modelSeeds = [] → seed_jobs job = [job]) ∧
    (job.modelSeeds ≠ [] →
      (seed_jobs job).length = job.modelSeeds.length) ∧
    (∀ (k : Nat) (seed : Int), job.modelSeeds[k]? = some seed →
      (seed_jobs job)[k]? =
        some (AF3Job.mk (job.name ++ "_" ++ toString seed) [seed]
          job.sequences)) := by
  refine ⟨fun h => by simp [seed_jobs, h], fun h => ?_, fun k seed hk => ?_⟩
  · rw [seed_jobs, if_neg (by simpa using h)]
    simp
  · have hlen : job.modelSeeds.length ≠ 0 := by
      intro h0
      rw [List.getElem?_eq_none (by omega)] at hk
      exact Option.noConfusion hk
    rw [seed_jobs, if_neg hlen]
    simp [hk]

/-- C6 witness: `modelSeeds = [5, 9]` with base name `X` yields `X_5` then
`X_9`, each with the singleton seed list. -/
theorem C6_seed_expansion_witness :
    seed_jobs { name := "X", modelSeeds := [5, 9], sequences := [] } =
      [{ name := "X_5", modelSeeds := [5], sequences := [] },
       { name := "X_9", modelSeeds := [9], sequences := [] }] ∧
    (seed_jobs { name := "X", modelSeeds := [5, 9], sequences := [] }).length =
      [(5 : Int), 9].length :=
  ⟨by rfl,
    (C6_seed_expansion { name := "X", modelSeeds := [5, 9], sequences := [] }).2.1
      (by decide)⟩

/-- Sampling helper: with `k` within the population size the sample has
exactly `k` elements. -/
theorem randomSampleAux_length (k : Nat) :
    ∀ (rs : List Nat) (pop : List Int), k ≤ pop.length →
      (randomSampleAux rs pop k).length = k := by
  induction k with
  | zero => intro rs pop h; rfl
  | succ n ih =>
    intro rs pop h
    rw [randomSampleAux]
    rw [dif_neg (by omega)]
    simp only [List.length_cons]
    have he : (pop.eraseIdx (rs.headD 0 % pop.length)).length = pop.length - 1 :=
      List.length_eraseIdx_of_lt (Nat.mod_lt _ (Nat.pos_of_ne_zero (by omega)))
    rw [ih rs.tail _ (by omega)]

/-- Sampling helper: every sampled element comes from the population. -/
theorem randomSampleAux_subset (k : Nat) :
    ∀ (rs : List Nat) (pop : List Int) (x : Int),
      x ∈ randomSampleAux rs pop k → x ∈ pop := by
  induction k with
  | zero => intro rs pop x h; simp [randomSampleAux] at h
  | succ n ih =>
    intro rs pop x h
    rw [randomSampleAux] at h
    by_cases hp : pop.length = 0
    · rw [dif_pos hp] at h; simp at h
    · rw [dif_neg hp] at h
      rcases List.mem_cons.mp h with h | h
      · rw [h]; exact List.get_mem _ _ _
      · exact List.eraseIdx_subset _ _ (ih _ _ _ h)

/-- Sampling helper: sampling without replacement from a duplicate-free
population yields pairwise-distinct elements. -/
theorem randomSampleAux_nodup (k : Nat) :
    ∀ (rs : List Nat) (pop : List Int), pop.Nodup →
      (randomSampleAux rs pop k).Nodup := by
  induction k with
  | zero => intro rs pop h; simp [randomSampleAux]
  | succ n ih =>
    intro rs pop hnd
    rw [randomSampleAux]
    by_cases hp : pop.length = 0
    · rw [dif_pos hp]; simp
    · rw [dif_neg hp]
      refine List.nodup_cons.mpr ⟨?_, ih _ _ (hnd.eraseIdx _)⟩
      intro hmem
      have hmem2 := randomSampleAux_subset n _ _ _ hmem
      rw [List.mem_eraseIdx_iff_getElem] at hmem2
      obtain ⟨i, hi, hne, heq⟩ := hmem2
      have hlt : rs.headD 0 % pop.length < pop.length :=
        Nat.mod_lt _ (Nat.pos_of_ne_zero hp)
      have hij : i = rs.headD 0 % pop.length :=
        (@List.Nodup.getElem_inj_iff _ _ hnd i hi _ hlt).mp (by simpa using heq)
      exact hne hij

/-- C7: for every `N ≥ 1` and every randomness stream, `generate_seeds`
succeeds (the `random.sample` size check `N ≤ 10N-1` never fires) and
returns exactly `N` pairwise-distinct integers, each within `[1, 10N-1]`. -/
theorem C7_seed_generation (n : Nat) (hn : 1 ≤ n) (rs : List Nat) :
    ∃ l, generate_seeds n rs = .ok l ∧ l.length = n ∧ l.Nodup ∧
      ∀ x ∈ l, 1 ≤ x ∧ x ≤ 10 * (n : Int) - 1 := by
  have hpl : ((List.range' 1 (SEED_MULTIPLIER * n - 1)).map
      Int.ofNat).length = 10 * n - 1 := by
    rw [List.length_map, List.length_range', SEED_MULTIPLIER]
  refine ⟨randomSampleAux rs
    ((List.range' 1 (SEED_MULTIPLIER * n - 1)).map Int.ofNat) n,
    ?_, ?_, ?_, ?_⟩
  · unfold generate_seeds random_sample
    rw [if_neg (by rw [hpl]; omega)]
  · exact randomSampleAux_length n rs _ (by rw [hpl]; omega)
  · refine randomSampleAux_nodup n rs _ ?_
    exact (List.nodup_range' _ _).map (fun a b h => Int.ofNat.inj h)
  · intro x hx
    have hsub := randomSampleAux_subset n rs _ x hx
    simp only [List.mem_map] at hsub
    obtain ⟨m, hm, rfl⟩ := hsub
    rw [List.mem_range'_1] at hm
    simp only [SEED_MULTIPLIER] at hm
    rw [Int.ofNat_eq_natCast]
    omega

/-- C7 witness: `N = 1` draws from `[1, 9]`. -/
theorem C7_seed_generation_witness : (1 : Nat) ≤ 1 ∧
    ∃ l, generate_seeds 1 [] = .ok l ∧ l.length = 1 ∧ l.Nodup ∧
      ∀ x ∈ l, 1 ≤ x ∧ x ≤ 10 * ((1 : Nat) : Int) - 1 :=
  ⟨le_refl 1, C7_seed_generation 1 (le_refl 1) []⟩

end AFInput

namespace AFInput

theorem digitChar_val : ∀ r, r < 10 → (Nat.digitChar r).toNat - 48 = r := by decide

theorem digitChar_mem_decDigits : ∀ r, r < 10 → Nat.digitChar r ∈ decDigits := by
  decide

theorem natCharsAux_foldl :
    ∀ (fuel n : Nat) (acc : List Char), n ≤ fuel →
      decVal (natCharsAux fuel n acc) =
        acc.foldl (fun a c => 10 * a + (c.toNat - 48)) n := by
  intro fuel
  induction fuel with
  | zero =>
    intro n acc h
    have hn : n = 0 := by omega
    subst hn
    rfl
  | succ f ih =>
    intro n acc h
    rw [natCharsAux]
    by_cases hn : n = 0
    · subst hn; rfl
    · rw [if_neg hn]
      rw [ih (n / 10) _ (by omega)]
      simp only [List.foldl_cons]
      rw [digitChar_val (n % 10) (Nat.mod_lt _ (by omega))]
      congr 1
      omega

theorem decVal_natChars (n : Nat) : decVal (natChars n) = n := by
  rw [natChars]
  by_cases hn : n = 0
  · subst hn; rfl
  · rw [if_neg hn]
    rw [natCharsAux_foldl n n [] (le_refl n)]
    rfl

theorem natChars_injective {m n : Nat} (h : natChars m = natChars n) : m = n := by
  have := decVal_natChars m
  rw [h, decVal_natChars] at this
  omega

theorem natCharsAux_chars :
    ∀ (fuel n : Nat) (acc : List Char) (c : Char),
      c ∈ natCharsAux fuel n acc → c ∈ acc ∨ c ∈ decDigits := by
  intro fuel
  induction fuel with
  | zero => intro n acc c h; exact Or.inl h
  | succ f ih =>
    intro n acc c h
    rw [natCharsAux] at h
    by_cases hn : n = 0
    · rw [if_pos hn] at h; exact Or.inl h
    · rw [if_neg hn] at h
      rcases ih _ _ _ h with h2 | h2
      · rcases List.mem_cons.mp h2 with h3 | h3
        · exact Or.inr (h3 ▸ digitChar_mem_decDigits _ (Nat.mod_lt _ (by omega)))
        · exact Or.inl h3
      · exact Or.inr h2

theorem natChars_chars {n : Nat} {c : Char} (h : c ∈ natChars n) :
    c ∈ decDigits := by
  rw [natChars] at h
  by_cases hn : n = 0
  · rw [if_pos hn] at h
    simp at h
    subst h
    decide
  · rw [if_neg hn] at h
    rcases natCharsAux_chars n n [] c h with h2 | h2
    · simp at h2
    · exact h2

theorem intChars_chars {i : Int} {c : Char} (h : c ∈ intChars i) :
    c = '-' ∨ c ∈ decDigits := by
  rw [intChars] at h
  by_cases hi : i < 0
  · rw [if_pos hi] at h
    rcases List.mem_cons.mp h with h2 | h2
    · exact Or.inl h2
    · exact Or.inr (natChars_chars h2)
  · rw [if_neg hi] at h
    exact Or.inr (natChars_chars h)

theorem underscore_not_mem_intChars (i : Int) : '_' ∉ intChars i := by
  intro h
  rcases intChars_chars h with h | h
  · exact absurd h (by decide)
  · exact absurd h (by decide)

theorem t_not_mem_intChars (i : Int) : 't' ∉ intChars i := by
  intro h
  rcases intChars_chars h with h | h
  · exact absurd h (by decide)
  · exact absurd h (by decide)

theorem underscore_not_mem_natChars (n : Nat) : '_' ∉ natChars n := by
  intro h
  exact absurd (natChars_chars h) (by decide)

theorem intChars_injective {i j : Int} (h : intChars i = intChars j) : i = j := by
  rw [intChars, intChars] at h
  by_cases hi : i < 0 <;> by_cases hj : j < 0
  · rw [if_pos hi, if_pos hj] at h
    have := natChars_injective (List.cons_injective h)
    omega
  · rw [if_pos hi, if_neg hj] at h
    exfalso
    have hmem : '-' ∈ natChars j.toNat := by rw [← h]; exact List.mem_cons_self _ _
    exact absurd (natChars_chars hmem) (by decide)
  · rw [if_neg hi, if_pos hj] at h
    exfalso
    have hmem : '-' ∈ natChars i.toNat := by rw [h]; exact List.mem_cons_self _ _
    exact absurd (natChars_chars hmem) (by decide)
  · rw [if_neg hi, if_neg hj] at h
    have := natChars_injective h
    omega

end AFInput

namespace AFInput

theorem split_cons_eq {c : Char} :
    ∀ (a1 a2 r1 r2 : List Char), c ∉ a1 → c ∉ a2 →
      a1 ++ c :: r1 = a2 ++ c :: r2 → a1 = a2 ∧ r1 = r2 := by
  intro a1
  induction a1 with
  | nil =>
    intro a2 r1 r2 h1 h2 h
    cases a2 with
    | nil => simpa using h
    | cons x xs =>
      exfalso
      simp only [List.nil_append, List.cons_append, List.cons.injEq] at h
      exact h2 (h.1 ▸ List.mem_cons_self _ _)
  | cons x xs ih =>
    intro a2 r1 r2 h1 h2 h
    cases a2 with
    | nil =>
      exfalso
      simp only [List.cons_append, List.nil_append, List.cons.injEq] at h
      exact h1 (h.1 ▸ List.mem_cons_self _ _)
    | cons y ys =>
      simp only [List.cons_append, List.cons.injEq] at h
      obtain ⟨hxy, h⟩ := h
      obtain ⟨he, hr⟩ := ih ys r1 r2 (fun hm => h1 (List.mem_cons_of_mem _ hm))
        (fun hm => h2 (List.mem_cons_of_mem _ hm)) h
      exact ⟨by rw [hxy, he], hr⟩

theorem splitOnChar_ne_nil (c : Char) : ∀ l : List Char, splitOnChar c l ≠ [] := by
  intro l
  cases l with
  | nil => simp [splitOnChar]
  | cons x xs =>
    rw [splitOnChar]
    cases h : splitOnChar c xs with
    | nil => simp
    | cons h t =>
      by_cases hx : x = c <;> simp [hx]

theorem splitOnChar_not_mem {c : Char} :
    ∀ {l : List Char}, c ∉ l → splitOnChar c l = [l] := by
  intro l
  induction l with
  | nil => intro h; rfl
  | cons x xs ih =>
    intro h
    have hx : ¬ x = c := fun hx => h (hx ▸ List.mem_cons_self _ _)
    rw [splitOnChar, ih (fun hm => h (List.mem_cons_of_mem _ hm))]
    simp [hx]

theorem splitOnChar_append {c : Char} :
    ∀ (a b : List Char), c ∉ a →
      splitOnChar c (a ++ c :: b) = a :: splitOnChar c b := by
  intro a
  induction a with
  | nil =>
    intro b h
    simp only [List.nil_append]
    rw [splitOnChar]
    cases hs : splitOnChar c b with
    | nil => exact absurd hs (splitOnChar_ne_nil c b)
    | cons x xs => simp
  | cons x xs ih =>
    intro b h
    have hx : ¬ x = c := fun hx => h (hx ▸ List.mem_cons_self _ _)
    simp only [List.cons_append]
    rw [splitOnChar, ih b (fun hm => h (List.mem_cons_of_mem _ hm))]
    simp [hx]

theorem splitOnChar_pair {h r : List Char} (hh : '_' ∉ h) (hr : '_' ∉ r) :
    splitOnChar '_' (h ++ '_' :: r) = [h, r] := by
  rw [splitOnChar_append h r hh, splitOnChar_not_mem hr]

theorem splitOnChar_length (c : Char) :
    ∀ l : List Char, (splitOnChar c l).length = l.count c + 1 := by
  intro l
  induction l with
  | nil => rfl
  | cons x xs ih =>
    rw [splitOnChar]
    cases hs : splitOnChar c xs with
    | nil => exact absurd hs (splitOnChar_ne_nil c xs)
    | cons h t =>
      rw [hs] at ih
      by_cases hx : x = c
      · simp only [if_pos hx, List.length_cons] at ih ⊢
        rw [List.count_cons]
        simp [hx, ih]
      · simp only [if_neg hx, List.length_cons] at ih ⊢
        rw [List.count_cons, ih]
        have hcx : ¬ (c == x) := by simpa using fun hcx => hx hcx.symm
        simp [hcx]
        exact hx

theorem tupleKey_inj {t1 t2 : List Char × Int × Int}
    (h1 : '_' ∉ t1.1) (h2 : '_' ∉ t2.1) (h : tupleKey t1 = tupleKey t2) :
    t1 = t2 := by
  obtain ⟨hh, hrest⟩ := split_cons_eq t1.1 t2.1 _ _ h1 h2 h
  obtain ⟨hs, he⟩ := split_cons_eq (intChars t1.2.1) (intChars t2.2.1) _ _
    (t_not_mem_intChars _) (t_not_mem_intChars _) hrest
  have hs2 := intChars_injective hs
  have he2 := intChars_injective (List.cons_injective he)
  obtain ⟨a1, b1, c1⟩ := t1
  obtain ⟨a2, b2, c2⟩ := t2
  simp_all

end AFInput

namespace AFInput

theorem mem_specGroups_aux (l : List AF2Entity) :
    ∀ (acc : List (List Char × Int × Int)) (t : List Char × Int × Int),
      t ∈ l.foldl (fun acc e =>
          if (e.header, e.rstart, e.rend) ∈ acc then acc
          else acc ++ [(e.header, e.rstart, e.rend)]) acc ↔
        t ∈ acc ∨ ∃ e ∈ l, (e.header, e.rstart, e.rend) = t := by
  induction l with
  | nil => intro acc t; simp
  | cons e l ih =>
    intro acc t
    rw [List.foldl_cons, ih]
    by_cases hmem : (e.header, e.rstart, e.rend) ∈ acc
    · rw [if_pos hmem]
      constructor
      · rintro (h | ⟨x, hx, hxt⟩)
        · exact Or.inl h
        · exact Or.inr ⟨x, List.mem_cons_of_mem _ hx, hxt⟩
      · rintro (h | ⟨x, hx, hxt⟩)
        · exact Or.inl h
        · rcases List.mem_cons.mp hx with rfl | hx2
          · exact Or.inl (hxt ▸ hmem)
          · exact Or.inr ⟨x, hx2, hxt⟩
    · rw [if_neg hmem]
      constructor
      · rintro (h | h)
        · rcases List.mem_append.mp h with h2 | h2
          · exact Or.inl h2
          · exact Or.inr ⟨e, List.mem_cons_self _ _, by simpa using (List.mem_singleton.mp h2).symm⟩
        · obtain ⟨x, hx, hxt⟩ := h
          exact Or.inr ⟨x, List.mem_cons_of_mem _ hx, hxt⟩
      · rintro (h | ⟨x, hx, hxt⟩)
        · exact Or.inl (List.mem_append_left _ h)
        · rcases List.mem_cons.mp hx with rfl | hx2
          · exact Or.inl (List.mem_append_right _ (by simp [hxt]))
          · exact Or.inr ⟨x, hx2, hxt⟩

theorem mem_specGroups {l : List AF2Entity} {t : List Char × Int × Int} :
    t ∈ specGroups l ↔ ∃ e ∈ l, (e.header, e.rstart, e.rend) = t := by
  rw [specGroups, mem_specGroups_aux]
  simp

theorem specGroups_clean {l : List AF2Entity}
    (hclean : ∀ e ∈ l, '_' ∉ e.header) {t : List Char × Int × Int}
    (ht : t ∈ specGroups l) : '_' ∉ t.1 := by
  obtain ⟨e, he, rfl⟩ := mem_specGroups.mp ht
  exact hclean e he

theorem fragKey_eq_tupleKey (e : AF2Entity) :
    fragKey e = tupleKey (e.header, e.rstart, e.rend) := rfl

theorem specGroups_append (l : List AF2Entity) (e : AF2Entity) :
    specGroups (l ++ [e]) =
      if (e.header, e.rstart, e.rend) ∈ specGroups l then specGroups l
      else specGroups l ++ [(e.header, e.rstart, e.rend)] := by
  rw [specGroups, List.foldl_append]
  rfl

theorem groupCounts_append (l : List AF2Entity) (e : AF2Entity)
    (t : List Char × Int × Int) :
    groupCounts (l ++ [e]) t =
      groupCounts l t ++
        (if (e.header, e.rstart, e.rend) = t then [e.count] else []) := by
  rw [groupCounts, groupCounts, List.filter_append, List.map_append]
  congr 1
  by_cases h : (e.header, e.rstart, e.rend) = t
  · simp [List.filter, h]
  · simp [List.filter, h]

theorem frag_fold_eq (l : List AF2Entity) (hclean : ∀ e ∈ l, '_' ∉ e.header) :
    l.foldl (fun d e => addFragment d (fragKey e) e.count) [] =
      (specGroups l).map (fun t => (tupleKey t, groupCounts l t)) := by
  induction l using List.reverseRecOn with
  | nil => rfl
  | append_singleton l e ih =>
    have hcl : ∀ x ∈ l, '_' ∉ x.header :=
      fun x hx => hclean x (List.mem_append_left _ hx)
    have hce : '_' ∉ e.header :=
      hclean e (List.mem_append_right _ (List.mem_singleton.mpr rfl))
    rw [List.foldl_append, List.foldl_cons, List.foldl_nil, ih hcl]
    rw [specGroups_append]
    by_cases hmem : (e.header, e.rstart, e.rend) ∈ specGroups l
    · rw [if_pos hmem]
      rw [addFragment]
      rw [if_pos (by
        simp only [List.any_eq_true, List.mem_map, decide_eq_true_eq]
        exact ⟨(tupleKey (e.header, e.rstart, e.rend), groupCounts l _),
          ⟨⟨_, hmem, rfl⟩, (fragKey_eq_tupleKey e).symm⟩⟩)]
      rw [List.map_map]
      apply List.map_congr_left
      intro t ht
      simp only [Function.comp_apply]
      rw [groupCounts_append]
      by_cases hte : t = (e.header, e.rstart, e.rend)
      · subst hte
        rw [if_pos (by rw [fragKey_eq_tupleKey])]
        simp
      · rw [if_neg (by
          intro hk
          rw [fragKey_eq_tupleKey] at hk
          exact hte (tupleKey_inj (specGroups_clean hcl ht) hce hk))]
        rw [if_neg (fun h => hte h.symm)]
        simp
    · rw [if_neg hmem]
      rw [addFragment]
      rw [if_neg (by
        simp only [List.any_eq_true, List.mem_map, decide_eq_true_eq, not_exists,
          not_and]
        rintro p ⟨t, ht, rfl⟩ hk
        rw [fragKey_eq_tupleKey] at hk
        exact hmem ((tupleKey_inj (specGroups_clean hcl ht) hce hk) ▸ ht))]
      rw [List.map_append]
      congr 1
      · apply List.map_congr_left
        intro t ht
        rw [groupCounts_append]
        rw [if_neg (by
          intro h
          exact hmem (h ▸ ht))]
        simp
      · simp only [List.map_cons, List.map_nil]
        rw [groupCounts_append, if_pos rfl]
        have hnil : groupCounts l (e.header, e.rstart, e.rend) = [] := by
          rw [groupCounts, List.map_eq_nil_iff, List.filter_eq_nil_iff]
          intro x hx hdec
          rw [decide_eq_true_eq] at hdec
          exact hmem (hdec ▸ mem_specGroups.mpr ⟨x, hx, rfl⟩)
        rw [hnil]
        rw [fragKey_eq_tupleKey]
        simp

end AFInput

namespace AFInput

theorem mapM_ok_map {α β γ : Type} (kf : α → β) (f : β → Except String γ)
    (g : α → γ) :
    ∀ l : List α, (∀ t ∈ l, f (kf t) = .ok (g t)) →
      (l.map kf).mapM f = .ok (l.map g) := by
  intro l
  induction l with
  | nil => intro h; rfl
  | cons x xs ih =>
    intro h
    rw [List.map_cons, List.mapM_cons, h x (List.mem_cons_self _ _),
      ih (fun t ht => h t (List.mem_cons_of_mem _ ht))]
    rfl

theorem foldl_append_eq (ps : List (List Char)) :
    ∀ init : List Char, ps.foldl (fun a b => a ++ b) init = init ++ ps.flatten := by
  induction ps with
  | nil => intro init; simp
  | cons x xs ih =>
    intro init
    rw [List.foldl_cons, ih, List.flatten_cons, List.append_assoc]

theorem flatten_map_concat (c : Char) :
    ∀ gs : List (List Char), gs ≠ [] →
      (gs.map (fun g => g ++ [c])).flatten = joinSep [c] gs ++ [c] := by
  intro gs
  induction gs with
  | nil => intro h; exact absurd rfl h
  | cons x xs ih =>
    intro h
    cases xs with
    | nil => simp [joinSep]
    | cons y ys =>
      rw [List.map_cons, List.flatten_cons, ih (by simp), joinSep]
      simp [List.append_assoc]

theorem rangePart_no_underscore (a b : Int) :
    '_' ∉ intChars a ++ 't' :: 'o' :: intChars b := by
  intro h
  rcases List.mem_append.mp h with h | h
  · exact underscore_not_mem_intChars a h
  · rcases List.mem_cons.mp h with h | h
    · exact absurd h (by decide)
    · rcases List.mem_cons.mp h with h | h
      · exact absurd h (by decide)
      · exact underscore_not_mem_intChars b h

theorem fragmentPiece_ok (t : List Char × Int × Int) (m : Nat)
    (hclean : '_' ∉ t.1) :
    fragmentPiece (tupleKey t) m =
      .ok ((t.1 ++ '_' :: (natChars m ++ '_' ::
        (intChars t.2.1 ++ 't' :: 'o' :: intChars t.2.2))) ++ ['_']) := by
  rw [fragmentPiece, tupleKey,
    splitOnChar_pair hclean (rangePart_no_underscore t.2.1 t.2.2)]
  simp [List.append_assoc]

/-- C8: for a job with no declared name, the generated name follows the
spec's description exactly — group the (expanded) entities by
`(name, start, end)`, take the maximum count seen per group, emit
`"{name}_{maxCount}_{start}to{end}"` fragments in first-seen group order
joined by `"_"` with the trailing `"_"` trimmed — whenever the entity names
are underscore-free (underscored names crash the split, see C10). -/
theorem C8_generated_name (entities : List AF2Entity) (hne : entities ≠ [])
    (hclean : ∀ e ∈ entities, '_' ∉ e.header) :
    generate_job_name entities = .ok (spec_job_name entities) := by
  rw [generate_job_name]
  rw [frag_fold_eq entities hclean, List.map_map]
  have hmapM := mapM_ok_map
    (fun t : List Char × Int × Int =>
      ((fun p : List Char × List Nat => (p.1, listMax p.2)) ∘
        (fun t => (tupleKey t, groupCounts entities t))) t)
    (fun p => fragmentPiece p.1 p.2)
    (fun (t : List Char × Int × Int) => (t.1 ++ '_' :: (natChars (specMaxCount entities t) ++ '_' ::
      (intChars t.2.1 ++ 't' :: 'o' :: intChars t.2.2))) ++ ['_'])
    (specGroups entities)
    (fun t ht => fragmentPiece_ok t _ (specGroups_clean hclean ht))
  rw [hmapM]
  have hgne : specGroups entities ≠ [] := by
    cases entities with
    | nil => exact absurd rfl hne
    | cons x xs =>
      exact List.ne_nil_of_mem
        (mem_specGroups.mpr ⟨x, List.mem_cons_self _ _, rfl⟩)
  show (match ((((specGroups entities).map
      (fun (t : List Char × Int × Int) => (t.1 ++ '_' :: (natChars (specMaxCount entities t) ++ '_' ::
        (intChars t.2.1 ++ 't' :: 'o' :: intChars t.2.2))) ++ ['_'])).foldl
          (fun a b => a ++ b) []).getLast?) with
    | none => (Except.error "IndexError: string index out of range" :
        Except String (List Char))
    | some c =>
      .ok (if c = '_' then
        ((((specGroups entities).map
          (fun (t : List Char × Int × Int) => (t.1 ++ '_' :: (natChars (specMaxCount entities t) ++ '_' ::
            (intChars t.2.1 ++ 't' :: 'o' :: intChars t.2.2))) ++ ['_'])).foldl
              (fun a b => a ++ b) [])).dropLast
        else ((((specGroups entities).map
          (fun (t : List Char × Int × Int) => (t.1 ++ '_' :: (natChars (specMaxCount entities t) ++ '_' ::
            (intChars t.2.1 ++ 't' :: 'o' :: intChars t.2.2))) ++ ['_'])).foldl
              (fun a b => a ++ b) [])))) = .ok (spec_job_name entities)
  rw [show ((specGroups entities).map
      (fun (t : List Char × Int × Int) => (t.1 ++ '_' :: (natChars (specMaxCount entities t) ++ '_' ::
        (intChars t.2.1 ++ 't' :: 'o' :: intChars t.2.2))) ++ ['_'])) =
      (((specGroups entities).map
        (fun (t : List Char × Int × Int) => t.1 ++ '_' :: (natChars (specMaxCount entities t) ++ '_' ::
          (intChars t.2.1 ++ 't' :: 'o' :: intChars t.2.2)))).map
            (fun g => g ++ ['_'])) from by rw [List.map_map]; rfl]
  rw [foldl_append_eq, List.nil_append]
  rw [flatten_map_concat '_' _ (by
    simp only [ne_eq, List.map_eq_nil_iff]
    exact hgne)]
  rw [List.getLast?_concat]
  rw [List.dropLast_concat]
  rfl

end AFInput

namespace AFInput

/-- C8 witness: the expanded entities of declarations
`("A", [1,100], count 1)` and `("A", [1,100], count 3)` yield the single
fragment name `A_3_1to100`. -/
theorem C8_name_witness :
    generate_job_name (buildEntities ["A".toList, "A".toList]
        ["Q".toList, "Q".toList] [some (1, 100), some (1, 100)] [1, 3]) =
      .ok "A_3_1to100".toList :=
  (C8_generated_name _ (by decide) (by decide)).trans
    (congrArg Except.ok (by decide))

end AFInput


namespace AFInput

/-! ## FASTA-dictionary lemmas for the AlphaFold2 entity expansion -/

theorem dictInsert_present_same (d : List (List Char × List Char))
    (k v : List Char) (hall : ∀ p ∈ d, p.1 = k → p.2 = v)
    (hex : ∃ p ∈ d, p.1 = k) : dictInsert d k v = d := by
  rw [dictInsert, if_pos (by
    simp only [List.any_eq_true, decide_eq_true_eq]
    exact hex)]
  have : ∀ p ∈ d, (fun p : List Char × List Char =>
      if p.1 = k then (k, v) else p) p = id p := by
    intro p hp
    by_cases hk : p.1 = k
    · simp only [if_pos hk, id_eq]
      have := hall p hp hk
      cases p
      simp_all
    · simp [if_neg hk]
  rw [List.map_congr_left this, List.map_id]

theorem dictInsert_absent (d : List (List Char × List Char)) (k v : List Char)
    (hall : ∀ p ∈ d, ¬ p.1 = k) : dictInsert d k v = d ++ [(k, v)] := by
  rw [dictInsert, if_neg (by
    simp only [List.any_eq_true, decide_eq_true_eq, not_exists, not_and]
    exact hall)]

theorem afHeader_inj_idx {n : List Char} {s e : Int} {i j : Nat}
    (h : afHeader n i s e = afHeader n j s e) : i = j := by
  unfold afHeader at h
  have h2 := List.append_cancel_left h
  have h3 := List.cons_injective h2
  exact natChars_injective (split_cons_eq _ _ _ _
    (underscore_not_mem_natChars i) (underscore_not_mem_natChars j) h3).1

theorem innerFold_le (n : List Char) (s e : Int) (v : List Char) (m : Nat) :
    ∀ j, j ≤ m →
    (List.range' 1 j).foldl
      (fun d2 i => dictInsert d2 (afHeader n i s e) v)
      ((List.range' 1 m).map (fun i => (afHeader n i s e, v))) =
    (List.range' 1 m).map (fun i => (afHeader n i s e, v)) := by
  intro j
  induction j with
  | zero => intro h; rfl
  | succ jj ih =>
    intro h
    rw [List.range'_1_concat, List.foldl_append, ih (by omega),
      List.foldl_cons, List.foldl_nil]
    apply dictInsert_present_same
    · intro p hp hk
      obtain ⟨i, hi, rfl⟩ := List.mem_map.mp hp
      rfl
    · refine ⟨(afHeader n (1 + jj) s e, v),
        List.mem_map.mpr ⟨1 + jj, ?_, rfl⟩, rfl⟩
      rw [List.mem_range'_1]
      omega

theorem innerFold_succ (n : List Char) (s e : Int) (v : List Char) (m : Nat) :
    (List.range' 1 (1 + m)).foldl
      (fun d2 i => dictInsert d2 (afHeader n i s e) v)
      ((List.range' 1 m).map (fun i => (afHeader n i s e, v))) =
    (List.range' 1 m).map (fun i => (afHeader n i s e, v)) ++
      [(afHeader n (1 + m) s e, v)] := by
  rw [show 1 + m = m + 1 from Nat.add_comm 1 m]
  rw [List.range'_1_concat, List.foldl_append, innerFold_le n s e v m m (le_refl m),
    List.foldl_cons, List.foldl_nil]
  rw [dictInsert_absent _ _ _ (by
    intro p hp hk
    obtain ⟨i, hi, rfl⟩ := List.mem_map.mp hp
    rw [List.mem_range'_1] at hi
    have := afHeader_inj_idx hk
    omega)]
  rw [Nat.add_comm m 1]

theorem sequencesToAdd_single (n sq : List Char) (s e : Int) (c : Nat) :
    sequencesToAdd ((List.range' 1 c).map (fun j =>
      { header := n, sequence := sq, rstart := s, rend := e, count := j })) =
    (List.range' 1 c).map (fun i => (afHeader n i s e, sq)) := by
  rw [sequencesToAdd, List.foldl_map]
  induction c with
  | zero => rfl
  | succ m ih =>
    rw [List.range'_1_concat, List.foldl_append, ih, List.foldl_cons,
      List.foldl_nil, List.map_append]
    dsimp only
    exact innerFold_succ n s e sq m

end AFInput

namespace AFInput

/-- C9: a proteinChain declaration with name `n`, range `[s,e]` and count `c`
in a (named) job contributes exactly `c` FASTA entries, with headers
`"{n}_{i}_{s}to{e}"` for copy index `i` in `1..c`, each mapped to the same
sliced sequence — the count duplicates are materialized as repeated entries. -/
theorem C9_fasta_entries (ps am : List (List Char × List Char))
    (n sq jn : List Char) (s e : Int) (c : Nat)
    (hlk : List.lookup n ps = some sq) (hjn : jn ≠ []) :
    generate_job_entities ps am
      { name := some jn,
        entities := [{ name := n, type := "proteinChain",
                       range := some (s, e), count := some c }] } =
      .ok ((List.range' 1 c).map
        (fun i => (afHeader n i s e, pySlice sq (s - 1) e)), jn) := by
  have hlk2 : af2LookupSequence ps am n = .ok sq := by
    rw [af2LookupSequence, hlk]
  have hseq : get_entity_sequences ps am [some (s, e)] [n] =
      .ok [pySlice sq (s - 1) e] := by
    rw [get_entity_sequences]
    rw [List.mapM_cons, hlk2, List.mapM_nil]
    rfl
  rw [generate_job_entities]
  simp only [List.filter, List.map]
  rw [hseq]
  simp only [Bind.bind, Except.bind]
  rw [if_neg hjn]
  simp only [Option.getD_some, pure, Except.pure]
  rw [buildEntities]
  rw [show buildEntities [] [] [] [] = [] from rfl]
  rw [List.append_nil]
  rw [sequencesToAdd_single]

end AFInput

namespace AFInput

theorem fragmentPiece_err {k : List Char} (m : Nat)
    (hlen : 3 ≤ (splitOnChar '_' k).length) :
    fragmentPiece k m = .error "ValueError: values to unpack" := by
  rw [fragmentPiece]
  cases hs : splitOnChar '_' k with
  | nil => rfl
  | cons a t =>
    cases t with
    | nil => rfl
    | cons b t2 =>
      cases t2 with
      | nil =>
        rw [hs] at hlen
        simp at hlen
      | cons c3 t3 => rfl

theorem fragKey_split_long {e : AF2Entity} (hu : '_' ∈ e.header) :
    3 ≤ (splitOnChar '_' (fragKey e)).length := by
  rw [splitOnChar_length, fragKey]
  rw [List.count_append, List.count_cons]
  have h1 : 0 < e.header.count '_' := List.count_pos_iff.mpr hu
  simp
  omega

theorem addFragment_head (d : List (List Char × List Nat)) (k : List Char)
    (c : Nat) (p : List Char × List Nat) (hd : d.head? = some p) :
    ∃ q, (addFragment d k c).head? = some q ∧ q.1 = p.1 := by
  cases d with
  | nil => simp at hd
  | cons x xs =>
    have hxp : x = p := by simpa using hd
    rw [addFragment]
    by_cases hx : (x :: xs).any (fun p2 => decide (p2.1 = k)) = true
    · rw [if_pos hx]
      simp only [List.map_cons, List.head?_cons]
      by_cases hk : x.1 = k
      · exact ⟨(x.1, x.2 ++ [c]), by rw [if_pos hk], by rw [hxp]⟩
      · exact ⟨x, by rw [if_neg hk], by rw [hxp]⟩
    · rw [if_neg hx]
      exact ⟨x, by simp, by rw [hxp]⟩

theorem fragFold_head (l : List AF2Entity) :
    ∀ (d : List (List Char × List Nat)) (p : List Char × List Nat),
      d.head? = some p →
      ∃ q, (l.foldl (fun d e => addFragment d (fragKey e) e.count) d).head? =
        some q ∧ q.1 = p.1 := by
  induction l with
  | nil => intro d p hd; exact ⟨p, hd, rfl⟩
  | cons e l ih =>
    intro d p hd
    rw [List.foldl_cons]
    obtain ⟨q, hq, hqk⟩ := addFragment_head d (fragKey e) e.count p hd
    obtain ⟨q2, h2, h2k⟩ := ih _ q hq
    exact ⟨q2, h2, h2k.trans hqk⟩

/-- C10: AlphaFold2 job-name generation is partial — with no declared name
and zero proteinChain entities, the last-character inspection of the empty
name raises an `IndexError`; a proteinChain entity whose name contains an
underscore makes the two-way fragment split raise a `ValueError`. -/
theorem C10_name_generation_crashes (ps am : List (List Char × List Char))
    (ents : List AF2Decl) (e : AF2Entity) (rest : List AF2Entity) :
    (generate_job_name ([] : List AF2Entity) =
      .error "IndexError: string index out of range") ∧
    ((∀ d ∈ ents, d.type ≠ "proteinChain") →
      generate_job_entities ps am { name := none, entities := ents } =
        .error "IndexError: string index out of range") ∧
    ('_' ∈ e.header →
      generate_job_name (e :: rest) =
        .error "ValueError: values to unpack") := by
  refine ⟨rfl, fun hnp => ?_, fun hu => ?_⟩
  · rw [generate_job_entities]
    have hfil : ents.filter (fun d => d.type = "proteinChain") = [] := by
      rw [List.filter_eq_nil_iff]
      intro d hd
      simpa using hnp d hd
    rw [hfil]
    rfl
  · rw [generate_job_name]
    rw [List.foldl_cons]
    rw [show addFragment [] (fragKey e) e.count = [(fragKey e, [e.count])]
      from rfl]
    obtain ⟨q, hq, hqk⟩ := fragFold_head rest [(fragKey e, [e.count])]
      (fragKey e, [e.count]) rfl
    cases hf : rest.foldl (fun d e => addFragment d (fragKey e) e.count)
        [(fragKey e, [e.count])] with
    | nil => rw [hf] at hq; simp at hq
    | cons q' t =>
      rw [hf] at hq
      simp only [List.head?_cons, Option.some_inj] at hq
      subst hq
      rw [List.map_cons, List.mapM_cons]
      rw [fragmentPiece_err _ (hqk ▸ fragKey_split_long hu)]
      rfl

end AFInput


namespace AFInput

/-- C9 witness: catalog `P ↦ MKVLAA`, declaration with range `[2,5]` and
count 2 yields exactly the two headers `P_1_2to5` and `P_2_2to5`, both
mapped to `KVLA`. -/
theorem C9_fasta_witness :
    generate_job_entities [("P".toList, "MKVLAA".toList)] []
      { name := some "J".toList,
        entities := [{ name := "P".toList, type := "proteinChain",
                       range := some (2, 5), count := some 2 }] } =
      .ok ((List.range' 1 2).map
        (fun i => (afHeader "P".toList i 2 5,
          pySlice "MKVLAA".toList (2 - 1) 5)), "J".toList) ∧
    (List.range' 1 2).map (fun i => (afHeader "P".toList i 2 5,
        pySlice "MKVLAA".toList (2 - 1) 5)) =
      [("P_1_2to5".toList, "KVLA".toList),
       ("P_2_2to5".toList, "KVLA".toList)] :=
  ⟨C9_fasta_entries [("P".toList, "MKVLAA".toList)] [] "P".toList
      "MKVLAA".toList "J".toList 2 5 2 (by rfl) (by decide), by decide⟩

/-- C10 witness: a nameless job whose only entity is a dnaSequence hits the
`IndexError`, and the underscored header hits the `ValueError`. -/
theorem C10_crash_witness :
    generate_job_entities [] []
      { name := none,
        entities := [{ name := "D".toList, type := "dnaSequence" }] } =
      .error "IndexError: string index out of range" ∧
    generate_job_name
      [{ header := "A_B".toList, sequence := [], rstart := 1, rend := 100,
         count := 1 }] =
      .error "ValueError: values to unpack" :=
  ⟨(C10_name_generation_crashes [] []
      [{ name := "D".toList, type := "dnaSequence" }]
      { header := "A_B".toList, sequence := [], rstart := 1, rend := 100,
        count := 1 } []).2.1 (by decide),
   (C10_name_generation_crashes [] []
      [{ name := "D".toList, type := "dnaSequence" }]
      { header := "A_B".toList, sequence := [], rstart := 1, rend := 100,
        count := 1 } []).2.2 (by decide)⟩

end AFInput
